import Mathlib

/-!
Verification of the RaftI2C device-type code generator
(`scripts/DecodeGenerator.py`, `scripts/PseudocodeHandler.py`,
`scripts/ProcessDevTypeJsonToC.py`) against its natural-language
specification.

Python strings are modelled as `List Char`; Python character classes
(`\w`, `\d`, `str.isdigit`) are modelled over the ASCII range, which is
the range exercised by the generator's inputs (C identifiers, hex
strings, bit strings).
-/

namespace RaftI2C

/-! ### Identifier sanitization (`DecodeGenerator.to_valid_c_var_name`, lines 136-143) -/

/-- Python's `\w` word-character class restricted to ASCII:
letters, digits and underscore.  `re.sub(r'\W+', '_', s)` replaces
maximal runs of non-word characters. -/
def isPyWordChar (c : Char) : Bool := c.isAlphanum || c == '_'

lemma length_dropWhile_le (p : Char → Bool) (l : List Char) :
    (l.dropWhile p).length ≤ l.length := by
  induction l with
  | nil => simp [List.dropWhile]
  | cons a l ih =>
    rw [List.dropWhile]
    cases hpa : p a
    · simp
    · simp
      omega

/-- Model of `re.sub(r'\W+', '_', s)`: every maximal run of non-word
characters is replaced by a single underscore. -/
def collapseNonWord : List Char → List Char
  | [] => []
  | c :: cs =>
    if isPyWordChar c then c :: collapseNonWord cs
    else '_' :: collapseNonWord (cs.dropWhile (fun x => !isPyWordChar x))
termination_by l => l.length
decreasing_by
  · simp +arith
  · have h := length_dropWhile_le (fun x => !isPyWordChar x) cs
    simp
    omega

lemma collapseNonWord_nil : collapseNonWord [] = [] := by
  rw [collapseNonWord]

lemma collapseNonWord_cons (c : Char) (cs : List Char) :
    collapseNonWord (c :: cs) =
      if isPyWordChar c then c :: collapseNonWord cs
      else '_' :: collapseNonWord (cs.dropWhile (fun x => !isPyWordChar x)) := by
  rw [collapseNonWord]

/-- `DecodeGenerator.to_valid_c_var_name` (lines 136-143): collapse
non-word runs to `_`, then prefix `_` if the result starts with a digit. -/
def to_valid_c_var_name (s : List Char) : List Char :=
  match collapseNonWord s with
  | [] => []
  | c :: cs => if c.isDigit then '_' :: c :: cs else c :: cs

lemma to_valid_c_var_name_eq (s : List Char) :
    to_valid_c_var_name s =
      match collapseNonWord s with
      | [] => []
      | c :: cs => if c.isDigit then '_' :: c :: cs else c :: cs := rfl

lemma mem_collapseNonWord_word {s : List Char} {c : Char}
    (h : c ∈ collapseNonWord s) : isPyWordChar c = true := by
  induction s using collapseNonWord.induct with
  | case1 => rw [collapseNonWord_nil] at h; simp at h
  | case2 d cs hw ih =>
    rw [collapseNonWord_cons, if_pos hw] at h
    rcases List.mem_cons.mp h with h1 | h1
    · exact h1 ▸ hw
    · exact ih h1
  | case3 d cs hw ih =>
    rw [collapseNonWord_cons, if_neg hw] at h
    rcases List.mem_cons.mp h with h1 | h1
    · subst h1; rfl
    · exact ih h1

lemma collapseNonWord_of_word {s : List Char}
    (h : ∀ c ∈ s, isPyWordChar c = true) : collapseNonWord s = s := by
  induction s with
  | nil => exact collapseNonWord_nil
  | cons c cs ih =>
    have hc : isPyWordChar c = true := h c (List.mem_cons_self c cs)
    rw [collapseNonWord_cons, if_pos hc,
      ih (fun x hx => h x (List.mem_cons_of_mem c hx))]

lemma digit_isPyWordChar {c : Char} (h : c.isDigit = true) :
    isPyWordChar c = true := by
  simp [isPyWordChar, Char.isAlphanum, h]

/-- Claim C10: `to_valid_c_var_name` is idempotent, and any input whose
first character is a digit sanitizes to a name starting with an
underscore. -/
theorem c10_sanitize_idempotent_digit_underscore :
    (∀ s : List Char,
      to_valid_c_var_name (to_valid_c_var_name s) = to_valid_c_var_name s) ∧
    (∀ (c : Char) (s : List Char), c.isDigit = true →
      (to_valid_c_var_name (c :: s)).head? = some '_') := by
  constructor
  · intro s
    rw [to_valid_c_var_name_eq s]
    cases hs : collapseNonWord s with
    | nil =>
      simp only [to_valid_c_var_name_eq, collapseNonWord_nil]
    | cons c cs =>
      have hred : (match c :: cs with
          | [] => ([] : List Char)
          | c :: cs => if c.isDigit then '_' :: c :: cs else c :: cs)
          = if c.isDigit then '_' :: c :: cs else c :: cs := rfl
      rw [hred]
      have hword : ∀ x ∈ c :: cs, isPyWordChar x = true := by
        intro x hx
        exact mem_collapseNonWord_word (hs ▸ hx)
      by_cases hd : c.isDigit = true
      · rw [if_pos hd, to_valid_c_var_name_eq]
        have hunder : isPyWordChar '_' = true := rfl
        have hcoll : collapseNonWord ('_' :: c :: cs) = '_' :: c :: cs := by
          apply collapseNonWord_of_word
          intro x hx
          rcases List.mem_cons.mp hx with h1 | h1
          · exact h1 ▸ hunder
          · exact hword x h1
        rw [hcoll]
        norm_num
        decide
      · rw [if_neg hd, to_valid_c_var_name_eq]
        have hcoll : collapseNonWord (c :: cs) = c :: cs :=
          collapseNonWord_of_word hword
        rw [hcoll, hred, if_neg hd]
  · intro c s hc
    rw [to_valid_c_var_name_eq]
    have hw : isPyWordChar c = true := digit_isPyWordChar hc
    rw [collapseNonWord_cons, if_pos hw]
    simp [hc]

/-- Witness for C10 at a concrete input: sanitizing `"9a b"` twice equals
sanitizing it once, and the result starts with an underscore. -/
theorem c10_sanitize_witness :
    to_valid_c_var_name (to_valid_c_var_name ['9', 'a', ' ', 'b'])
      = to_valid_c_var_name ['9', 'a', ' ', 'b'] ∧
    (to_valid_c_var_name ['9', 'a', ' ', 'b']).head? = some '_' :=
  ⟨c10_sanitize_idempotent_digit_underscore.1 ['9', 'a', ' ', 'b'],
   c10_sanitize_idempotent_digit_underscore.2 '9' ['a', ' ', 'b'] (by decide)⟩

/-! ### The compact-type-tag map (`DecodeGenerator.__init__`, lines 28-51)

Each entry maps a python-struct type tag to the target C scalar type and
the name of the buffer-extraction helper paired with it.  The entries are
transcribed in source order; the source comments label `'b'` as
"Signed byte" and `'B'` as "Unsigned byte". -/

def pystruct_map : List (String × String × String) :=
  [("b", ("int8_t", "getUint8AndInc")),
   ("B", ("uint8_t", "getInt8AndInc")),
   (">h", ("int16_t", "getBEInt16AndInc")),
   ("<h", ("int16_t", "getLEInt16AndInc")),
   (">H", ("uint16_t", "getBEUint16AndInc")),
   ("<H", ("uint16_t", "getLEUint16AndInc")),
   (">i", ("int32_t", "getBEInt32AndInc")),
   ("<i", ("int32_t", "getLEInt32AndInc")),
   (">I", ("uint32_t", "getBEUint32AndInc")),
   ("<I", ("uint32_t", "getLEUint32AndInc")),
   (">l", ("int32_t", "getBEInt32AndInc")),
   ("<l", ("int32_t", "getLEInt32AndInc")),
   (">L", ("uint32_t", "getBEUint32AndInc")),
   ("<L", ("uint32_t", "getLEUint32AndInc")),
   (">q", ("int64_t", "getBEInt64AndInc")),
   ("<q", ("int64_t", "getLEInt64AndInc")),
   (">Q", ("uint64_t", "getBEUint64AndInc")),
   ("<Q", ("uint64_t", "getLEUint64AndInc")),
   (">f", ("float", "getBEfloat32AndInc")),
   ("<f", ("float", "getLEfloat32AndInc")),
   (">d", ("double", "getBEdouble64AndInc")),
   ("<d", ("double", "getLEdouble64AndInc"))]

/-- The signedness a tag declares: lower-case integer tags of the python
struct module are signed (`DecodeGenerator.is_attr_type_signed`,
lines 185-189, mirrors this for the integer tags). -/
def tagDeclaresSigned (tag : String) : Bool :=
  match tag.data with
  | [c] => c == 'b'
  | [_, c] => c == 'h' || c == 'i' || c == 'l' || c == 'q'
  | _ => false

/-- The signedness an extraction-helper name encodes: helpers reading a
signed quantity are named `get...Int<w>AndInc`, unsigned ones
`get...Uint<w>AndInc` (8-bit helpers have no endianness infix). -/
def fnNameEncodesSigned (fn : String) : Bool :=
  fn == "getInt8AndInc" || fn == "getBEInt16AndInc" || fn == "getLEInt16AndInc"
    || fn == "getBEInt32AndInc" || fn == "getLEInt32AndInc"
    || fn == "getBEInt64AndInc" || fn == "getLEInt64AndInc"

/-- Claim C8 (code_bug evaluation): the byte rows of `pystruct_map` are
swapped.  The signed-byte tag `'b'` (source comment "Signed byte") is
paired with the unsigned helper `getUint8AndInc`, and the unsigned-byte
tag `'B'` with the signed helper `getInt8AndInc`, so for these two tags
the extraction function does not agree with the tag's declared
signedness, contrary to the claim (and to the source's own comments and
the python-struct documentation it cites). -/
theorem c8_pystruct_byte_rows_swapped :
    pystruct_map.lookup ("b") = some ("int8_t", "getUint8AndInc") ∧
    pystruct_map.lookup ("B") = some ("uint8_t", "getInt8AndInc") ∧
    tagDeclaresSigned ("b") = true ∧
    fnNameEncodesSigned ("getUint8AndInc") = false ∧
    tagDeclaresSigned ("B") = false ∧
    fnNameEncodesSigned ("getInt8AndInc") = true := by
  refine ⟨rfl, rfl, by decide, by decide, by decide, by decide⟩

/-! ### Polling-config parser
(`DecodeGenerator._get_polling_config_result_len_bytes`, lines 83-106) -/

/-- Python `str.split(sep)` for a one-character separator: splitting
never yields the empty list (splitting `""` yields `[""]`). -/
def splitOnChar (sep : Char) : List Char → List (List Char)
  | [] => [[]]
  | c :: cs =>
    match splitOnChar sep cs with
    | [] => [[]]
    | g :: gs => if c = sep then [] :: g :: gs else (c :: g) :: gs

/-- Python `str.strip()` whitespace (ASCII range): space, tab, newline,
carriage return, vertical tab, form feed. -/
def isPySpace (c : Char) : Bool :=
  c == ' ' || c == '\t' || c == '\n' || c == '\r' || c == '\x0b' || c == '\x0c'

/-- Python `str.strip()`: drop whitespace from both ends. -/
def pyStrip (l : List Char) : List Char :=
  ((l.dropWhile isPySpace).reverse.dropWhile isPySpace).reverse

/-- Decimal digit run to a natural number (requires a non-empty
all-digit input). -/
def digitsToNat? (l : List Char) : Option Nat :=
  if l.isEmpty then none
  else if l.all Char.isDigit then
    some (l.foldl (fun a c => a * 10 + (c.toNat - 48)) 0)
  else none

/-- Model of Python `int(s)` on an already-stripped string, restricted
to an optional sign followed by ASCII digits (digit-group underscores
and non-ASCII digits are not modelled; they do not occur in the
generator's inputs). `none` models the `ValueError` that `int` raises. -/
def pyInt (l : List Char) : Option Int :=
  match l with
  | [] => none
  | c :: ds =>
    if c = '+' then (digitsToNat? ds).map Int.ofNat
    else if c = '-' then (digitsToNat? ds).map (fun n => -(n : Int))
    else (digitsToNat? (c :: ds)).map Int.ofNat

/-- The byte contribution of one entry's read-descriptor, computed on the
stripped text after `=` (the `if`/`elif` chain of lines 93-105):
`"0b"`-prefixed descriptors contribute `(len-2)/8` bytes when `len-2` is
a multiple of 8 and raise otherwise; `"r"`-prefixed descriptors
contribute `int(rest)`; empty descriptors contribute 0; anything else
raises `ValueError`. -/
def pollingReadDefLen (d : List Char) : Except (List Char) Int :=
  if d.take 2 = ['0', 'b'] then
    if (d.length - 2) % 8 ≠ 0 then
      .error (("Invalid polling config record value: ").data ++ d)
    else .ok (((d.length - 2) / 8 : Nat) : Int)
  else if d.take 1 = ['r'] then
    match pyInt (d.drop 1) with
    | some n => .ok n
    | none => .error (("invalid literal for int with base 10: ").data ++ d.drop 1)
  else if d.length = 0 then .ok 0
  else .error (("Invalid polling config record value: ").data ++ d)

/-- One `&`-separated entry: split on `=`, take the piece at index 1 if
present (else `""`), strip it, and measure it (lines 90-92). -/
def pollingEntryLen (pc : List Char) : Except (List Char) Int :=
  pollingReadDefLen
    (match splitOnChar '=' pc with
     | _ :: v :: _ => pyStrip v
     | _ => [])

/-- The accumulation loop over entries (lines 88-105): the running total
starts at 0 and the first raising entry aborts the whole parse. -/
def pollLoop : Int → List (List Char) → Except (List Char) Int
  | acc, [] => .ok acc
  | acc, pc :: rest =>
    match pollingEntryLen pc with
    | .error e => .error e
    | .ok n => pollLoop (acc + n) rest

/-- `DecodeGenerator._get_polling_config_result_len_bytes`
(lines 83-106). -/
def get_polling_config_result_len_bytes (s : List Char) : Except (List Char) Int :=
  pollLoop 0 (splitOnChar '&' s)

/-- Follows the claim's classification of an entry value: empty, or `0b`
followed by a bit string whose length is a multiple of 8, or `r`
followed by (one or more) digits. -/
def claimedValueFormB (v : List Char) : Bool :=
  v.isEmpty
    || (v.take 2 = ['0', 'b'] && (v.drop 2).all (fun c => c == '0' || c == '1')
          && (v.drop 2).length % 8 = 0)
    || (v.take 1 = ['r'] && !(v.drop 1).isEmpty && (v.drop 1).all Char.isDigit)

/-- The per-entry byte count the claim asserts: bit-string length divided
by 8, or the number spelled by the digits after `r`. -/
def claimedContribution (v : List Char) : Int :=
  if v.take 2 = ['0', 'b'] then (((v.drop 2).length / 8 : Nat) : Int)
  else if v.take 1 = ['r'] then ((digitsToNat? (v.drop 1)).getD 0 : Int)
  else 0

/-- "&"-joining of entry strings, mirroring the concrete syntax the
claim quantifies over. -/
def joinAmp : List (List Char) → List Char
  | [] => []
  | [x] => x
  | x :: y :: xs => x ++ '&' :: joinAmp (y :: xs)

/-- The polling-config string formed from `register=value` entries. -/
def joinEntries (entries : List (List Char × List Char)) : List Char :=
  joinAmp (entries.map (fun p => p.1 ++ '=' :: p.2))

lemma splitOnChar_ne_nil (sep : Char) (l : List Char) : splitOnChar sep l ≠ [] := by
  cases l with
  | nil => simp [splitOnChar]
  | cons c cs =>
    rw [splitOnChar]
    cases splitOnChar sep cs with
    | nil => simp
    | cons g gs =>
      by_cases h : c = sep
      · simp [h]
      · simp [h]

lemma splitOnChar_of_not_mem {sep : Char} {l : List Char} (h : sep ∉ l) :
    splitOnChar sep l = [l] := by
  induction l with
  | nil => rfl
  | cons c cs ih =>
    have hcs : sep ∉ cs := fun hx => h (List.mem_cons_of_mem c hx)
    have hc : c ≠ sep := fun hx => h (hx ▸ List.mem_cons_self c cs)
    rw [splitOnChar, ih hcs]
    simp [hc]

lemma splitOnChar_append_sep {sep : Char} {x : List Char} (l : List Char)
    (h : sep ∉ x) : splitOnChar sep (x ++ sep :: l) = x :: splitOnChar sep l := by
  induction x with
  | nil =>
    simp only [List.nil_append]
    rw [splitOnChar]
    cases hg : splitOnChar sep l with
    | nil => exact absurd hg (splitOnChar_ne_nil sep l)
    | cons g gs => simp
  | cons c x ih =>
    have hx : sep ∉ x := fun hm => h (List.mem_cons_of_mem c hm)
    have hc : c ≠ sep := fun hx => h (hx ▸ List.mem_cons_self c x)
    simp only [List.cons_append]
    rw [splitOnChar, ih hx]
    simp [hc]

lemma splitOnChar_joinAmp {sep : Char} (hsep : sep = '&') :
    ∀ (x : List Char) (xs : List (List Char)),
      (∀ y ∈ x :: xs, sep ∉ y) →
      splitOnChar sep (joinAmp (x :: xs)) = x :: xs := by
  intro x xs
  induction xs generalizing x with
  | nil =>
    intro h
    exact splitOnChar_of_not_mem (h x (List.mem_cons_self x []))
  | cons y ys ih =>
    intro h
    have hx : sep ∉ x := h x (List.mem_cons_self x (y :: ys))
    rw [joinAmp, hsep] at *
    rw [splitOnChar_append_sep _ hx,
      ih y (fun z hz => h z (List.mem_cons_of_mem x hz))]

lemma dropWhile_of_all_false {p : Char → Bool} {l : List Char}
    (h : ∀ c ∈ l, p c = false) : l.dropWhile p = l := by
  cases l with
  | nil => rfl
  | cons c cs =>
    rw [List.dropWhile]
    rw [h c (List.mem_cons_self c cs)]

lemma pyStrip_of_no_space {v : List Char}
    (h : ∀ c ∈ v, isPySpace c = false) : pyStrip v = v := by
  unfold pyStrip
  rw [dropWhile_of_all_false h,
    dropWhile_of_all_false (fun c hc => h c (List.mem_reverse.mp hc)),
    List.reverse_reverse]

lemma char_is_digit_props {c : Char} (h : c.isDigit = true) :
    c ≠ '&' ∧ c ≠ '=' ∧ isPySpace c = false := by
  refine ⟨fun hx => by subst hx; exact absurd h (by decide),
    fun hx => by subst hx; exact absurd h (by decide), ?_⟩
  by_contra hsp
  rw [Bool.not_eq_false] at hsp
  simp only [isPySpace, Bool.or_eq_true, beq_iff_eq] at hsp
  rcases hsp with ((((h1 | h1) | h1) | h1) | h1) | h1 <;>
    (subst h1; exact absurd h (by decide))

lemma claimed_chars {v : List Char} (h : claimedValueFormB v = true) :
    ∀ c ∈ v, c ≠ '&' ∧ c ≠ '=' ∧ isPySpace c = false := by
  intro c hc
  simp only [claimedValueFormB, Bool.or_eq_true, Bool.and_eq_true,
    decide_eq_true_eq, List.all_eq_true] at h
  rcases h with (h | ⟨⟨h2, hbits⟩, _⟩) | ⟨⟨h1, hne⟩, hdig⟩
  · rw [List.isEmpty_iff] at h
    subst h
    simp at hc
  · have hv : v = ['0', 'b'] ++ v.drop 2 := by
      conv_lhs => rw [← List.take_append_drop 2 v, h2]
    rw [hv] at hc
    rcases List.mem_append.mp hc with hc1 | hc1
    · rcases List.mem_cons.mp hc1 with h3 | h3
      · subst h3; exact ⟨by decide, by decide, by decide⟩
      · rcases List.mem_cons.mp h3 with h4 | h4
        · subst h4; exact ⟨by decide, by decide, by decide⟩
        · simp at h4
    · rcases hbits c hc1 with hb | hb
      · have hb0 : c = '0' := beq_iff_eq.mp hb
        subst hb0; exact ⟨by decide, by decide, by decide⟩
      · have hb1 : c = '1' := beq_iff_eq.mp hb
        subst hb1; exact ⟨by decide, by decide, by decide⟩
  · have hv : v = ['r'] ++ v.drop 1 := by
      conv_lhs => rw [← List.take_append_drop 1 v, h1]
    rw [hv] at hc
    rcases List.mem_append.mp hc with hc1 | hc1
    · rcases List.mem_cons.mp hc1 with h3 | h3
      · subst h3; exact ⟨by decide, by decide, by decide⟩
      · simp at h3
    · exact char_is_digit_props (hdig c hc1)

/-- A `0b`-prefixed value that is a genuine bit string but whose bit
count is not a multiple of 8 (the rejection case of the claim). -/
def bad0b (v : List Char) : Prop :=
  v.take 2 = ['0', 'b'] ∧ (v.drop 2).all (fun c => c == '0' || c == '1') = true
    ∧ (v.drop 2).length % 8 ≠ 0

/-- A non-empty entry value of "any other form": it starts with neither
`0b` nor `r` (and contains no separator or whitespace characters, so it
survives splitting and stripping intact). -/
def otherFormVal (v : List Char) : Prop :=
  v ≠ [] ∧ v.take 2 ≠ ['0', 'b'] ∧ v.take 1 ≠ ['r']
    ∧ (∀ c ∈ v, c ≠ '&' ∧ c ≠ '=' ∧ isPySpace c = false)

lemma zerob_chars {v : List Char} (h2 : v.take 2 = ['0', 'b'])
    (hbits : (v.drop 2).all (fun c => c == '0' || c == '1') = true) :
    ∀ c ∈ v, c ≠ '&' ∧ c ≠ '=' ∧ isPySpace c = false := by
  intro c hc
  have hv : v = ['0', 'b'] ++ v.drop 2 := by
    conv_lhs => rw [← List.take_append_drop 2 v, h2]
  rw [hv] at hc
  rw [List.all_eq_true] at hbits
  rcases List.mem_append.mp hc with hc1 | hc1
  · rcases List.mem_cons.mp hc1 with h3 | h3
    · subst h3; exact ⟨by decide, by decide, by decide⟩
    · rcases List.mem_cons.mp h3 with h4 | h4
      · subst h4; exact ⟨by decide, by decide, by decide⟩
      · simp at h4
  · rcases Bool.or_eq_true _ _ |>.mp (hbits c hc1) with hb | hb
    · have hb0 : c = '0' := beq_iff_eq.mp hb
      subst hb0; exact ⟨by decide, by decide, by decide⟩
    · have hb1 : c = '1' := beq_iff_eq.mp hb
      subst hb1; exact ⟨by decide, by decide, by decide⟩

lemma pollingEntryLen_entry {r v : List Char} (hr : '=' ∉ r) (hv : '=' ∉ v)
    (hsp : ∀ c ∈ v, isPySpace c = false) :
    pollingEntryLen (r ++ '=' :: v) = pollingReadDefLen v := by
  unfold pollingEntryLen
  rw [splitOnChar_append_sep v hr, splitOnChar_of_not_mem hv]
  simp only
  rw [pyStrip_of_no_space hsp]

lemma readDef_claimed {v : List Char} (h : claimedValueFormB v = true) :
    pollingReadDefLen v = .ok (claimedContribution v) := by
  simp only [claimedValueFormB, Bool.or_eq_true, Bool.and_eq_true,
    decide_eq_true_eq, List.all_eq_true] at h
  rcases h with (h | ⟨⟨h2, _⟩, hmod⟩) | ⟨⟨h1, hne⟩, hdig⟩
  · rw [List.isEmpty_iff] at h
    subst h
    rfl
  · unfold pollingReadDefLen claimedContribution
    rw [if_pos h2, if_pos h2]
    have hlen : v.length - 2 = (v.drop 2).length := (List.length_drop 2 v).symm
    rw [hlen, if_neg (by rw [hmod]; exact fun hx => hx rfl)]
  · have hv : v = 'r' :: v.drop 1 := by
      conv_lhs => rw [← List.take_append_drop 1 v, h1]
      rfl
    have hred : ('r' :: v.drop 1).take 2 = 'r' :: (v.drop 1).take 1 := rfl
    have htk2 : v.take 2 ≠ ['0', 'b'] := by
      rw [hv, hred]
      intro hx
      have h0 : ('r' :: (v.drop 1).take 1).head? = (['0', 'b'] : List Char).head? := by
        rw [hx]
      simp only [List.head?] at h0
      exact absurd (Option.some.inj h0) (by decide)
    unfold pollingReadDefLen claimedContribution
    rw [if_neg htk2, if_pos h1, if_neg htk2, if_pos h1]
    cases hd : v.drop 1 with
    | nil => rw [hd] at hne; simp at hne
    | cons c ds =>
      have hcd : c.isDigit = true := by
        rw [hd] at hdig
        exact hdig c (List.mem_cons_self c ds)
      have hplus : ¬ c = '+' := fun hx => by subst hx; exact absurd hcd (by decide)
      have hminus : ¬ c = '-' := fun hx => by subst hx; exact absurd hcd (by decide)
      have hdn : digitsToNat? (c :: ds) =
          some ((c :: ds).foldl (fun a c => a * 10 + (c.toNat - 48)) 0) := by
        unfold digitsToNat?
        rw [if_neg (by simp), if_pos (by rw [List.all_eq_true]; rw [hd] at hdig; exact hdig)]
      rw [pyInt, if_neg hplus, if_neg hminus, hdn]
      simp

lemma readDef_bad0b {v : List Char} (h : bad0b v) :
    ∃ e, pollingReadDefLen v = .error e := by
  unfold pollingReadDefLen
  rw [if_pos h.1]
  have hlen : v.length - 2 = (v.drop 2).length := (List.length_drop 2 v).symm
  rw [hlen, if_pos h.2.2]
  exact ⟨_, rfl⟩

lemma readDef_otherForm {v : List Char} (h : otherFormVal v) :
    ∃ e, pollingReadDefLen v = .error e := by
  unfold pollingReadDefLen
  rw [if_neg h.2.1, if_neg h.2.2.1,
    if_neg (fun hx => h.1 (List.length_eq_zero.mp hx))]
  exact ⟨_, rfl⟩

lemma pollLoop_all_ok (contrib : List Char → Int) :
    ∀ (l : List (List Char)) (acc : Int),
      (∀ pc ∈ l, pollingEntryLen pc = .ok (contrib pc)) →
      pollLoop acc l = .ok (acc + (l.map contrib).sum) := by
  intro l
  induction l with
  | nil => intro acc _; simp [pollLoop]
  | cons pc rest ih =>
    intro acc h
    rw [pollLoop, h pc (List.mem_cons_self pc rest)]
    show pollLoop (acc + contrib pc) rest = _
    rw [ih (acc + contrib pc) (fun x hx => h x (List.mem_cons_of_mem pc hx))]
    simp only [List.map_cons, List.sum_cons]
    congr 1
    ring

lemma pollLoop_has_error :
    ∀ (l : List (List Char)) (acc : Int),
      (∃ pc ∈ l, ∃ e, pollingEntryLen pc = .error e) →
      ∃ e, pollLoop acc l = .error e := by
  intro l
  induction l with
  | nil => intro acc h; simp at h
  | cons pc rest ih =>
    intro acc h
    rw [pollLoop]
    cases hh : pollingEntryLen pc with
    | error e => exact ⟨e, rfl⟩
    | ok n =>
      apply ih
      rcases h with ⟨pc', hpc', e, he⟩
      rcases List.mem_cons.mp hpc' with h1 | h1
      · subst h1; rw [hh] at he; exact absurd he (by simp)
      · exact ⟨pc', h1, e, he⟩

lemma entry_no_amp {r v : List Char} (hr : '&' ∉ r)
    (hv : ∀ c ∈ v, c ≠ '&' ∧ c ≠ '=' ∧ isPySpace c = false) :
    '&' ∉ r ++ '=' :: v := by
  intro hm
  rcases List.mem_append.mp hm with h1 | h1
  · exact hr h1
  · rcases List.mem_cons.mp h1 with h2 | h2
    · exact absurd h2.symm (by decide)
    · exact (hv '&' h2).1 rfl

lemma parse_joinEntries (entries : List (List Char × List Char))
    (hne : entries ≠ [])
    (hchars : ∀ p ∈ entries, '&' ∉ p.1 ∧ '=' ∉ p.1 ∧
      (∀ c ∈ p.2, c ≠ '&' ∧ c ≠ '=' ∧ isPySpace c = false)) :
    get_polling_config_result_len_bytes (joinEntries entries)
      = pollLoop 0 (entries.map (fun p => p.1 ++ '=' :: p.2)) := by
  unfold get_polling_config_result_len_bytes joinEntries
  cases hE : entries.map (fun p => p.1 ++ '=' :: p.2) with
  | nil => exact absurd (List.map_eq_nil_iff.mp hE) hne
  | cons x xs =>
    have hmem : ∀ y ∈ x :: xs, '&' ∉ y := by
      rw [← hE]
      intro y hy
      rcases List.mem_map.mp hy with ⟨p, hp, hpe⟩
      subst hpe
      exact entry_no_amp (hchars p hp).1 (hchars p hp).2.2
    rw [splitOnChar_joinAmp rfl x xs hmem]

lemma entry_ok {r v : List Char} (hr : '=' ∉ r) (hv : claimedValueFormB v = true) :
    pollingEntryLen (r ++ '=' :: v) = .ok (claimedContribution v) := by
  have hch := claimed_chars hv
  rw [pollingEntryLen_entry hr (fun hm => (hch '=' hm).2.1 rfl)
    (fun c hc => (hch c hc).2.2)]
  exact readDef_claimed hv

lemma entry_err_bad0b {r v : List Char} (hr : '=' ∉ r) (hv : bad0b v) :
    ∃ e, pollingEntryLen (r ++ '=' :: v) = .error e := by
  have hch := zerob_chars hv.1 hv.2.1
  rw [pollingEntryLen_entry hr (fun hm => (hch '=' hm).2.1 rfl)
    (fun c hc => (hch c hc).2.2)]
  exact readDef_bad0b hv

lemma entry_err_other {r v : List Char} (hr : '=' ∉ r) (hv : otherFormVal v) :
    ∃ e, pollingEntryLen (r ++ '=' :: v) = .error e := by
  rw [pollingEntryLen_entry hr (fun hm => (hv.2.2.2 '=' hm).2.1 rfl)
    (fun c hc => (hv.2.2.2 c hc).2.2)]
  exact readDef_otherForm hv

lemma pollLoop_entries_ok :
    ∀ (entries : List (List Char × List Char)) (acc : Int),
      (∀ p ∈ entries,
        pollingEntryLen (p.1 ++ '=' :: p.2) = .ok (claimedContribution p.2)) →
      pollLoop acc (entries.map (fun p => p.1 ++ '=' :: p.2))
        = .ok (acc + (entries.map (fun p => claimedContribution p.2)).sum) := by
  intro entries
  induction entries with
  | nil => intro acc _; simp [pollLoop]
  | cons p ps ih =>
    intro acc h
    simp only [List.map_cons]
    rw [pollLoop, h p (List.mem_cons_self p ps)]
    show pollLoop (acc + claimedContribution p.2) _ = _
    rw [ih (acc + claimedContribution p.2)
      (fun x hx => h x (List.mem_cons_of_mem p hx))]
    simp only [List.sum_cons]
    congr 1
    ring

/-- Claim C4, counterexample: the entry value `0bABCDEFGH` is of none of
the claim's three forms (it is not a bit string), yet the parser accepts
it and returns length 1 instead of raising, because the code checks only
the `0b` prefix and the divisibility of the remaining length, never that
the remaining characters are bits. -/
theorem c4_counterexample_non_bits_accepted :
    get_polling_config_result_len_bytes (("0x08=0bABCDEFGH").data) = .ok 1 ∧
    claimedValueFormB (("0bABCDEFGH").data) = false ∧
    ("0x08=0bABCDEFGH").data
      = joinEntries [(("0x08").data, ("0bABCDEFGH").data)] := by
  refine ⟨rfl, by decide, rfl⟩

/-- Claim C4 as amended: for entries in the claim's three forms the
total equals the claimed sum; a `0b` bit-string entry whose length is
not a multiple of 8 raises; a non-empty value starting with neither
`0b` nor `r` raises.  (The claim's blanket rejection of every other
form fails: any `0b`-prefixed value with 8-divisible length is accepted
whatever its characters, and `r` accepts any integer literal.) -/
theorem c4_polling_length_amended :
    (∀ entries : List (List Char × List Char),
      (∀ p ∈ entries, '&' ∉ p.1 ∧ '=' ∉ p.1 ∧ claimedValueFormB p.2 = true) →
      get_polling_config_result_len_bytes (joinEntries entries)
        = .ok (entries.map (fun p => claimedContribution p.2)).sum) ∧
    (∀ entries : List (List Char × List Char),
      (∀ p ∈ entries, '&' ∉ p.1 ∧ '=' ∉ p.1 ∧
        (claimedValueFormB p.2 = true ∨ bad0b p.2)) →
      (∃ p ∈ entries, bad0b p.2) →
      ∃ e, get_polling_config_result_len_bytes (joinEntries entries) = .error e) ∧
    (∀ entries : List (List Char × List Char),
      (∀ p ∈ entries, '&' ∉ p.1 ∧ '=' ∉ p.1 ∧
        (claimedValueFormB p.2 = true ∨ otherFormVal p.2)) →
      (∃ p ∈ entries, otherFormVal p.2) →
      ∃ e, get_polling_config_result_len_bytes (joinEntries entries) = .error e) := by
  refine ⟨?_, ?_, ?_⟩
  · intro entries h
    cases entries with
    | nil => rfl
    | cons p ps =>
      rw [parse_joinEntries _ (by simp)
        (fun q hq => ⟨(h q hq).1, (h q hq).2.1,
          fun c hc => claimed_chars (h q hq).2.2 c hc⟩)]
      rw [pollLoop_entries_ok _ 0 (fun q hq => entry_ok (h q hq).2.1 (h q hq).2.2)]
      rw [zero_add]
  · intro entries h hex
    have hchars : ∀ p ∈ entries, '&' ∉ p.1 ∧ '=' ∉ p.1 ∧
        (∀ c ∈ p.2, c ≠ '&' ∧ c ≠ '=' ∧ isPySpace c = false) := by
      intro p hp
      refine ⟨(h p hp).1, (h p hp).2.1, ?_⟩
      rcases (h p hp).2.2 with hc | hc
      · exact claimed_chars hc
      · exact zerob_chars hc.1 hc.2.1
    rcases hex with ⟨p, hp, hbad⟩
    rw [parse_joinEntries _ (by rintro rfl; simp at hp) hchars]
    apply pollLoop_has_error
    refine ⟨p.1 ++ '=' :: p.2, List.mem_map_of_mem _ hp, ?_⟩
    exact entry_err_bad0b (h p hp).2.1 hbad
  · intro entries h hex
    have hchars : ∀ p ∈ entries, '&' ∉ p.1 ∧ '=' ∉ p.1 ∧
        (∀ c ∈ p.2, c ≠ '&' ∧ c ≠ '=' ∧ isPySpace c = false) := by
      intro p hp
      refine ⟨(h p hp).1, (h p hp).2.1, ?_⟩
      rcases (h p hp).2.2 with hc | hc
      · exact claimed_chars hc
      · exact hc.2.2.2
    rcases hex with ⟨p, hp, hoth⟩
    rw [parse_joinEntries _ (by rintro rfl; simp at hp) hchars]
    apply pollLoop_has_error
    refine ⟨p.1 ++ '=' :: p.2, List.mem_map_of_mem _ hp, ?_⟩
    exact entry_err_other (h p hp).2.1 hoth

/-- Witness for C4 at a concrete config: two well-formed entries, a
16-bit bit pattern and a 1-byte read, total 2 + 1 = 3 bytes. -/
theorem c4_polling_length_witness :
    get_polling_config_result_len_bytes
      (joinEntries [(("0x08").data, ("0b0000000000000000").data),
                    (("0x09").data, ("r1").data)]) = .ok 3 := by
  have h := c4_polling_length_amended.1
    [(("0x08").data, ("0b0000000000000000").data),
     (("0x09").data, ("r1").data)] (by decide)
  rw [h]
  rfl

/-! ### Record-count semantics of the generated attribute-driven loop
(`DecodeGenerator.gen_attr_extraction_code`, lines 258-380, and
`gen_extract_code`, lines 399-416)

The emitted routine runs `while (numRecs < maxRecCount)`, computes the
record start `pBufIn + stride * numRecs`, breaks when
`pBuf + stride > pBufEnd`, extracts the timestamp, then performs each
attribute's own bounds check `pPos + sizeof(T) > pBufEnd` (breaking the
whole loop on failure), and finally increments `pOut` and `numRecs`; the
routine returns `pOut - pStruct`, which equals `numRecs`.  The model
below tracks the sequential-position path (attribute reads advance from
the record start past the timestamp). -/

/-- The per-attribute bounds checks of one record: sequential read
positions starting at `pos`, each checked against the buffer end
(line 312); `false` models the `break` out of the record loop. -/
def attrsFit (bufLen : Nat) : Nat → List Nat → Bool
  | _, [] => true
  | pos, w :: ws => if pos + w > bufLen then false else attrsFit bufLen (pos + w) ws

/-- The record loop of the generated attribute-driven decode routine:
returns the number of fully-decoded records (the routine's return
value).  `stride` is the declared record bytes plus the timestamp size
(line 261). -/
def gen_attr_loop (stride bufLen tsSize : Nat) (widths : List Nat)
    (maxRecCount : Nat) (numRecs : Nat) : Nat :=
  if numRecs < maxRecCount then
    if stride * numRecs + stride > bufLen then numRecs
    else if attrsFit bufLen (stride * numRecs + tsSize) widths then
      gen_attr_loop stride bufLen tsSize widths maxRecCount (numRecs + 1)
    else numRecs
  else numRecs
termination_by maxRecCount - numRecs

lemma attrsFit_of_sum_le {bufLen : Nat} :
    ∀ (ws : List Nat) (pos : Nat), pos + ws.sum ≤ bufLen →
      attrsFit bufLen pos ws = true := by
  intro ws
  induction ws with
  | nil => intro pos _; rfl
  | cons w rest ih =>
    intro pos h
    rw [List.sum_cons] at h
    rw [attrsFit, if_neg (by omega)]
    exact ih (pos + w) (by omega)

lemma gen_attr_loop_closed_form {stride bufLen tsSize : Nat} {widths : List Nat}
    (h0 : 0 < stride) (hfit : tsSize + widths.sum ≤ stride) (maxRecCount : Nat) :
    ∀ n, gen_attr_loop stride bufLen tsSize widths maxRecCount n
      = max n (min (bufLen / stride) maxRecCount) := by
  suffices h : ∀ fuel n, maxRecCount - n = fuel →
      gen_attr_loop stride bufLen tsSize widths maxRecCount n
        = max n (min (bufLen / stride) maxRecCount) by
    intro n
    exact h _ n rfl
  intro fuel
  induction fuel using Nat.strong_induction_on with
  | _ fuel ih =>
    intro n hn
    rw [gen_attr_loop]
    by_cases hlt : n < maxRecCount
    · rw [if_pos hlt]
      by_cases hbuf : stride * n + stride > bufLen
      · rw [if_pos hbuf]
        have hdiv : bufLen / stride ≤ n := by
          by_contra hc
          push_neg at hc
          have h2 : (n + 1) * stride ≤ bufLen := (Nat.le_div_iff_mul_le h0).mp hc
          nlinarith
        exact (Nat.max_eq_left (le_trans (Nat.min_le_left _ _) hdiv)).symm
      · rw [if_neg hbuf]
        push_neg at hbuf
        have hdiv : n + 1 ≤ bufLen / stride :=
          (Nat.le_div_iff_mul_le h0).mpr (by nlinarith)
        rw [if_pos (attrsFit_of_sum_le widths (stride * n + tsSize) (by linarith))]
        rw [ih (maxRecCount - (n + 1)) (by omega) (n + 1) rfl]
        have hmin : n + 1 ≤ min (bufLen / stride) maxRecCount :=
          le_min_iff.mpr ⟨hdiv, hlt⟩
        rw [Nat.max_eq_right hmin,
          Nat.max_eq_right (le_trans (Nat.le_succ n) hmin)]
    · rw [if_neg hlt]
      exact (Nat.max_eq_left
        (le_trans (Nat.min_le_right _ _) (le_of_not_lt hlt))).symm

/-- Claim C5: for the generated attribute-driven decode loop with record
stride `stride` (declared attribute bytes plus timestamp size, so the
timestamp and the declared attribute widths fit inside one stride), a
buffer shorter than one record yields 0 records, a buffer of exactly
`k` strides with `k < maxRecCount` yields exactly `k`, and a buffer of
at least `maxRecCount + 1` strides yields exactly `maxRecCount`; the
loop always returns a count (the model is a total function), never an
error. -/
theorem c5_attr_loop_record_count (stride bufLen tsSize maxRecCount : Nat)
    (widths : List Nat) (h0 : 0 < stride)
    (hfit : tsSize + widths.sum ≤ stride) :
    (bufLen < stride →
      gen_attr_loop stride bufLen tsSize widths maxRecCount 0 = 0) ∧
    (∀ k, bufLen = k * stride → k < maxRecCount →
      gen_attr_loop stride bufLen tsSize widths maxRecCount 0 = k) ∧
    ((maxRecCount + 1) * stride ≤ bufLen →
      gen_attr_loop stride bufLen tsSize widths maxRecCount 0 = maxRecCount) := by
  have hcf := @gen_attr_loop_closed_form stride bufLen tsSize widths h0 hfit
    maxRecCount 0
  rw [Nat.max_eq_right (Nat.zero_le _)] at hcf
  refine ⟨?_, ?_, ?_⟩
  · intro hsml
    rw [hcf, Nat.div_eq_of_lt hsml]
    simp
  · intro k hk hklt
    rw [hcf, hk, Nat.mul_div_cancel _ h0, Nat.min_eq_left (le_of_lt hklt)]
  · intro hbig
    have : maxRecCount + 1 ≤ bufLen / stride := (Nat.le_div_iff_mul_le h0).mpr hbig
    rw [hcf, Nat.min_eq_right (by omega)]

/-- Witness for C5 at concrete sizes: stride 4 (2 timestamp bytes plus a
2-byte attribute), buffer of 8 bytes, record limit 5: exactly 2 records
are decoded; also the short-buffer and limit cases at matching inputs. -/
theorem c5_attr_loop_witness :
    gen_attr_loop 4 8 2 [2] 5 0 = 2 ∧
    gen_attr_loop 4 3 2 [2] 5 0 = 0 ∧
    gen_attr_loop 4 24 2 [2] 5 0 = 5 :=
  ⟨(c5_attr_loop_record_count 4 8 2 5 [2] (by decide) (by decide)).2.1 2 rfl
      (by decide),
   (c5_attr_loop_record_count 4 3 2 5 [2] (by decide) (by decide)).1 (by decide),
   (c5_attr_loop_record_count 4 24 2 5 [2] (by decide) (by decide)).2.2 (by decide)⟩

/-! ### Timestamp extraction and wraparound correction
(`DecodeGenerator.gen_timestamp_extract_code`, lines 191-203, and
`gen_custom_extraction_code`, lines 205-256)

The emitted code reads a 16- or 32-bit big-endian counter, multiplies by
`POLL_RESULT_RESOLUTION_US`, adds a full counter range's worth of
microseconds to `decodeState.reportTimestampOffsetUs` when the new value
is below `decodeState.lastReportTimestampUs`, records the new value as
last, adds the offset, and stores `timestampUs / DECODE_RES` to the
output record.  The C++ counters are `uint64_t`; they are modelled as
unbounded naturals (a 64-bit microsecond counter cannot overflow on any
realistic input, so the `mod 2^64` reduction is immaterial here). -/

/-- The per-device persistent decode state (`RaftBusDeviceDecodeState`):
last raw timestamp value scaled to microseconds, and the accumulated
wraparound-correction offset in microseconds. -/
structure RaftBusDeviceDecodeState where
  lastReportTimestampUs : Nat
  reportTimestampOffsetUs : Nat
deriving DecidableEq

/-- One execution of the emitted timestamp block (lines 194-202) on raw
counter value `raw`: returns the updated state and the corrected
microsecond value `timestampUs` (after the offset was added, line 202).
The stored field value is `corrected / DECODE_STRUCT_TIMESTAMP_RESOLUTION_US`
(line 203), applied at the use sites below. -/
def gen_timestamp_step (resolutionUs wrapValue : Nat)
    (st : RaftBusDeviceDecodeState) (raw : Nat) :
    RaftBusDeviceDecodeState × Nat :=
  if raw * resolutionUs < st.lastReportTimestampUs then
    (⟨raw * resolutionUs, st.reportTimestampOffsetUs + wrapValue * resolutionUs⟩,
      raw * resolutionUs + (st.reportTimestampOffsetUs + wrapValue * resolutionUs))
  else
    (⟨raw * resolutionUs, st.reportTimestampOffsetUs⟩,
      raw * resolutionUs + st.reportTimestampOffsetUs)

/-- The corrected microsecond values produced by successive records
threaded through one shared `DecodeState` (the flat list models the
records of repeated decode invocations of the attribute-driven path). -/
def correctedTimestampsUs (resolutionUs wrapValue : Nat)
    (st : RaftBusDeviceDecodeState) : List Nat → List Nat
  | [] => []
  | raw :: rest =>
    (gen_timestamp_step resolutionUs wrapValue st raw).2 ::
      correctedTimestampsUs resolutionUs wrapValue
        (gen_timestamp_step resolutionUs wrapValue st raw).1 rest

/-- The timestamp values stored into the output records by the
attribute-driven path: each corrected value scaled to the output
resolution (line 203). -/
def attrPathStoredTimestamps (resolutionUs wrapValue decodeResUs : Nat)
    (st : RaftBusDeviceDecodeState) (raws : List Nat) : List Nat :=
  (correctedTimestampsUs resolutionUs wrapValue st raws).map (· / decodeResUs)

/-- The stored timestamps of the output records completed inside one
poll record of the custom path: the base record gets `corrected / D`,
and each `next` in the pseudocode advances `timestampUs` by the fixed
increment (`loop_end_lines`, lines 220-224) before stamping the next
slot.  A poll record with `k` executed `next`s completes `k` output
records; the stamp the final `next` writes into the following slot is
overwritten by the next poll record's timestamp block (or left in the
uncounted slot past the returned record count). -/
def customRecordStamps (decodeResUs inc : Nat) :
    Nat → Nat → List Nat
  | _, 0 => []
  | corrected, k + 1 =>
    (corrected / decodeResUs) :: customRecordStamps decodeResUs inc (corrected + inc) k

/-- The timestamp values stored into the counted output records by the
custom-pseudocode path: per poll record `(raw, k)` the timestamp block
runs once on the shared state (line 244) and the `k` completed output
records carry the fixed-increment stamps. -/
def customPathStoredTimestamps (resolutionUs wrapValue decodeResUs inc : Nat)
    (st : RaftBusDeviceDecodeState) : List (Nat × Nat) → List Nat
  | [] => []
  | (raw, k) :: rest =>
    customRecordStamps decodeResUs inc
      (gen_timestamp_step resolutionUs wrapValue st raw).2 k ++
    customPathStoredTimestamps resolutionUs wrapValue decodeResUs inc
      (gen_timestamp_step resolutionUs wrapValue st raw).1 rest

lemma step_last (RES W : Nat) (st : RaftBusDeviceDecodeState) (x : Nat) :
    (gen_timestamp_step RES W st x).1.lastReportTimestampUs = x * RES := by
  unfold gen_timestamp_step
  split <;> rfl

lemma step_corr_eq (RES W : Nat) (st : RaftBusDeviceDecodeState) (x : Nat) :
    (gen_timestamp_step RES W st x).2
      = (gen_timestamp_step RES W st x).1.lastReportTimestampUs
        + (gen_timestamp_step RES W st x).1.reportTimestampOffsetUs := by
  unfold gen_timestamp_step
  split <;> rfl

lemma step_mono (RES W : Nat) (st : RaftBusDeviceDecodeState) (b : Nat)
    (hlast : ∃ a, a < W ∧ st.lastReportTimestampUs = a * RES) :
    st.lastReportTimestampUs + st.reportTimestampOffsetUs
      ≤ (gen_timestamp_step RES W st b).2 := by
  rcases hlast with ⟨a, haW, hlast⟩
  unfold gen_timestamp_step
  split
  · have h1 : a * RES ≤ W * RES := Nat.mul_le_mul_right RES (le_of_lt haW)
    rw [hlast]
    omega
  · rename_i hnw
    rw [hlast] at *
    omega

lemma mod_add_small (W ra d : Nat) (h1 : ra < W) (h2 : d < W) :
    (ra + d) % W = if ra + d < W then ra + d else ra + d - W := by
  split
  · exact Nat.mod_eq_of_lt (by assumption)
  · rename_i hge
    push_neg at hge
    rw [Nat.mod_eq_sub_mod hge]
    exact Nat.mod_eq_of_lt (by omega)

/-- The corrected microsecond value tracks true elapsed counter time:
if the previous read was of true time `a` and the next of true time `b`
with `a ≤ b` and `b - a < W` (at most one wraparound between the two
reads), the corrected value advances by exactly `(b - a) * RES`. -/
lemma step_track (RES W : Nat) (hW : 0 < W) (st : RaftBusDeviceDecodeState)
    (a b : Nat) (hab : a ≤ b) (hgap : b - a < W)
    (hlast : st.lastReportTimestampUs = (a % W) * RES) :
    (gen_timestamp_step RES W st (b % W)).2
      = (a % W) * RES + st.reportTimestampOffsetUs + (b - a) * RES := by
  have hbmod : b % W = (a % W + (b - a)) % W := by
    conv_lhs => rw [← Nat.add_sub_cancel' hab]
    rw [Nat.add_mod, Nat.mod_eq_of_lt hgap]
  rw [mod_add_small W (a % W) (b - a) (Nat.mod_lt a hW) hgap] at hbmod
  by_cases hcase : a % W + (b - a) < W
  · rw [if_pos hcase] at hbmod
    have hcond : ¬ ((b % W) * RES < st.lastReportTimestampUs) := by
      rw [hlast, hbmod]
      exact not_lt.mpr (Nat.mul_le_mul_right RES (Nat.le_add_right _ _))
    unfold gen_timestamp_step
    rw [if_neg hcond]
    show (b % W) * RES + st.reportTimestampOffsetUs = _
    rw [hbmod, Nat.add_mul]
    ring
  · rw [if_neg hcase] at hbmod
    push_neg at hcase
    rcases Nat.eq_zero_or_pos RES with hres | hres
    · subst hres
      unfold gen_timestamp_step
      rw [hlast]
      simp
    · have hlt : b % W < a % W := by
        have hm := Nat.mod_lt a hW
        omega
      have hcond : (b % W) * RES < st.lastReportTimestampUs := by
        rw [hlast]
        exact Nat.mul_lt_mul_of_lt_of_le hlt (le_refl RES) hres
      unfold gen_timestamp_step
      rw [if_pos hcond]
      show (b % W) * RES + (st.reportTimestampOffsetUs + W * RES) = _
      rw [hbmod]
      have hkey : (a % W + (b - a) - W) * RES + W * RES
          = (a % W + (b - a)) * RES := by
        rw [Nat.sub_mul]
        have h2 : W * RES ≤ (a % W + (b - a)) * RES :=
          Nat.mul_le_mul_right RES hcase
        omega
      calc (a % W + (b - a) - W) * RES + (st.reportTimestampOffsetUs + W * RES)
          = ((a % W + (b - a) - W) * RES + W * RES)
            + st.reportTimestampOffsetUs := by ring
        _ = (a % W + (b - a)) * RES + st.reportTimestampOffsetUs := by rw [hkey]
        _ = (a % W) * RES + st.reportTimestampOffsetUs + (b - a) * RES := by
            rw [Nat.add_mul]
            ring

/-- The attribute-path corrected values are monotonically non-decreasing
for any sequence of valid counter readings (each below the counter
range), from any starting state. -/
lemma attr_corrected_chain (RES W : Nat) :
    ∀ (raws : List Nat) (st : RaftBusDeviceDecodeState),
      (∀ x ∈ raws, x < W) →
      List.Chain' (· ≤ ·) (correctedTimestampsUs RES W st raws) := by
  intro raws
  induction raws with
  | nil => intro st _; exact List.chain'_nil
  | cons b rest ih =>
    intro st h
    rw [correctedTimestampsUs, List.chain'_cons']
    constructor
    · intro y hy
      cases rest with
      | nil => simp [correctedTimestampsUs] at hy
      | cons c rest' =>
        rw [correctedTimestampsUs] at hy
        simp only [List.head?_cons, Option.mem_def, Option.some.injEq] at hy
        subst hy
        rw [step_corr_eq RES W st b]
        exact step_mono RES W _ c
          ⟨b, h b (List.mem_cons_self b _), step_last RES W st b⟩
    · exact ih (gen_timestamp_step RES W st b).1
        (fun x hx => h x (List.mem_cons_of_mem b hx))

lemma customRecordStamps_chain (D inc : Nat) :
    ∀ (k c : Nat), List.Chain' (· ≤ ·) (customRecordStamps D inc c k) := by
  intro k
  induction k with
  | zero => intro c; exact List.chain'_nil
  | succ k ih =>
    intro c
    rw [customRecordStamps, List.chain'_cons']
    refine ⟨?_, ih (c + inc)⟩
    intro y hy
    cases k with
    | zero => simp [customRecordStamps] at hy
    | succ k' =>
      rw [customRecordStamps] at hy
      simp only [List.head?_cons, Option.mem_def, Option.some.injEq] at hy
      subst hy
      exact Nat.div_le_div_right (Nat.le_add_right c inc)

lemma customRecordStamps_getLast (D inc : Nat) :
    ∀ (k c : Nat),
      (customRecordStamps D inc c (k + 1)).getLast? = some ((c + k * inc) / D) := by
  intro k
  induction k with
  | zero => intro c; simp [customRecordStamps]
  | succ k ih =>
    intro c
    have ih2 := ih (c + inc)
    rw [customRecordStamps] at ih2
    rw [customRecordStamps, customRecordStamps, List.getLast?_cons_cons, ih2]
    congr 2
    ring

/-- Monotonicity of the custom-path stored timestamps: each poll record
completes at least one output record, consecutive counter reads are of
non-decreasing true times less than one wrap apart, and the counter time
elapsed between consecutive reads covers the synthetic increments of the
earlier record. -/
lemma custom_chain (RES W D inc : Nat) (hW : 0 < W) :
    ∀ (recs : List (Nat × Nat)) (st : RaftBusDeviceDecodeState),
      (∀ p ∈ recs, 1 ≤ p.2) →
      List.Chain' (fun p q : Nat × Nat =>
        p.1 ≤ q.1 ∧ q.1 - p.1 < W ∧ (p.2 - 1) * inc ≤ (q.1 - p.1) * RES) recs →
      List.Chain' (· ≤ ·)
        (customPathStoredTimestamps RES W D inc st
          (recs.map (fun p => (p.1 % W, p.2)))) := by
  intro recs
  induction recs with
  | nil => intro st _ _; exact List.chain'_nil
  | cons p rest ih =>
    intro st hk hch
    obtain ⟨tp, kp⟩ := p
    simp only [List.map_cons]
    rw [customPathStoredTimestamps, List.chain'_append]
    refine ⟨customRecordStamps_chain D inc _ _,
      ih _ (fun q hq => hk q (List.mem_cons_of_mem _ hq))
        (List.chain'_cons'.mp hch).2, ?_⟩
    intro x hx y hy
    cases rest with
    | nil =>
      rw [List.map_nil, customPathStoredTimestamps] at hy
      simp at hy
    | cons q rest' =>
      obtain ⟨tq, kq⟩ := q
      simp only [List.map_cons] at hy
      rw [customPathStoredTimestamps] at hy
      have hkq : 1 ≤ kq := hk (tq, kq) (by simp)
      obtain ⟨kq2, rfl⟩ : ∃ m, kq = m + 1 := ⟨kq - 1, by omega⟩
      rw [customRecordStamps] at hy
      simp only [List.cons_append, List.head?_cons, Option.mem_def,
        Option.some.injEq] at hy
      subst hy
      have hkp : 1 ≤ kp := hk (tp, kp) (by simp)
      obtain ⟨kp2, rfl⟩ : ∃ m, kp = m + 1 := ⟨kp - 1, by omega⟩
      rw [customRecordStamps_getLast] at hx
      simp only [Option.mem_def, Option.some.injEq] at hx
      subst hx
      obtain ⟨hab, hgap, hinc⟩ := (List.chain'_cons.mp hch).1
      have htr := step_track RES W hW (gen_timestamp_step RES W st (tp % W)).1
        tp tq hab hgap (step_last RES W st (tp % W))
      have hcp : (gen_timestamp_step RES W st (tp % W)).2
          = (tp % W) * RES
            + (gen_timestamp_step RES W st (tp % W)).1.reportTimestampOffsetUs := by
        rw [step_corr_eq, step_last]
      apply Nat.div_le_div_right
      rw [htr, hcp]
      have hle : kp2 * inc ≤ (tq - tp) * RES := by simpa using hinc
      exact Nat.add_le_add_left hle _

/-- Claim C1, counterexample: in the custom fixed-increment path the
claim fails.  Two consecutive counter reads of true times 5 and 6 ticks
(non-decreasing, far less than one wraparound apart, and indeed no
wraparound occurs), with a per-record increment of 1000000 µs and the
default resolutions (1000 µs/tick, wrap 0x10000, output in ms): the
first poll record completes two output records stamped 5 and 1005 ms,
and the next poll record's first output record is stamped 6 ms — the
stored sequence [5, 1005, 6] is not monotonically non-decreasing even
though at most one (in fact no) counter wraparound occurred between the
consecutive timestamp reads. -/
theorem c1_counterexample_custom_path :
    (5 ≤ 6 ∧ 6 - 5 < 65536) ∧
    customPathStoredTimestamps 1000 65536 1000 1000000 ⟨0, 0⟩
      [(5 % 65536, 2), (6 % 65536, 1)] = [5, 1005, 6] ∧
    ¬ List.Chain' (· ≤ ·) [5, 1005, 6] := by
  refine ⟨by decide, by decide, ?_⟩
  intro h
  have h2 := (List.chain'_cons.mp h).2
  have h3 := (List.chain'_cons.mp h2).1
  omega

/-- Claim C1 as amended: the attribute-driven path's stored timestamps
are monotonically non-decreasing under the claim's hypothesis (counter
reads of non-decreasing true times, consecutive reads less than one full
counter range apart); the custom fixed-increment path additionally
requires that the counter time elapsed between consecutive reads covers
the synthetic increments added to the earlier poll record's outputs
(and that each poll record completes at least one output record) —
without that extra condition the counterexample above applies. -/
theorem c1_monotone_timestamps_amended :
    (∀ (RES W D : Nat) (t : List Nat) (st : RaftBusDeviceDecodeState),
      0 < W →
      List.Chain' (· ≤ ·) t →
      List.Chain' (fun a b => b - a < W) t →
      List.Chain' (· ≤ ·)
        (attrPathStoredTimestamps RES W D st (t.map (· % W)))) ∧
    (∀ (RES W D inc : Nat) (recs : List (Nat × Nat))
        (st : RaftBusDeviceDecodeState),
      0 < W →
      (∀ p ∈ recs, 1 ≤ p.2) →
      List.Chain' (fun p q : Nat × Nat =>
        p.1 ≤ q.1 ∧ q.1 - p.1 < W ∧ (p.2 - 1) * inc ≤ (q.1 - p.1) * RES) recs →
      List.Chain' (· ≤ ·)
        (customPathStoredTimestamps RES W D inc st
          (recs.map (fun p => (p.1 % W, p.2))))) := by
  constructor
  · intro RES W D t st hW hmono hgap
    unfold attrPathStoredTimestamps
    rw [List.chain'_map]
    apply List.Chain'.imp (fun a b h => Nat.div_le_div_right h)
    apply attr_corrected_chain
    intro x hx
    rcases List.mem_map.mp hx with ⟨y, _, rfl⟩
    exact Nat.mod_lt y hW
  · intro RES W D inc recs st hW hk hch
    exact custom_chain RES W D inc hW recs st hk hch

/-- Witness for C1 at concrete inputs: the attribute path on true times
[5, 9, 65538] (one wraparound) and the custom path on records
(5 ticks, 2 outputs), (700 ticks, 1 output) with 500 µs increments. -/
theorem c1_monotone_timestamps_witness :
    List.Chain' (· ≤ ·)
      (attrPathStoredTimestamps 1000 65536 1000 ⟨0, 0⟩
        ([5, 9, 65538].map (· % 65536))) ∧
    List.Chain' (· ≤ ·)
      (customPathStoredTimestamps 1000 65536 1000 500 ⟨0, 0⟩
        ([(5, 2), (700, 1)].map (fun p => (p.1 % 65536, p.2)))) :=
  ⟨c1_monotone_timestamps_amended.1 1000 65536 1000 [5, 9, 65538] ⟨0, 0⟩
      (by decide)
      (by rw [List.chain'_cons, List.chain'_cons]
          exact ⟨by decide, by decide, List.chain'_singleton _⟩)
      (by rw [List.chain'_cons, List.chain'_cons]
          exact ⟨by decide, by decide, List.chain'_singleton _⟩),
   c1_monotone_timestamps_amended.2 1000 65536 1000 500 [(5, 2), (700, 1)] ⟨0, 0⟩
      (by decide) (by decide)
      (by rw [List.chain'_cons]
          exact ⟨⟨by decide, by decide, by decide⟩, List.chain'_singleton _⟩)⟩

/-- Claim C2: from a fresh `DecodeState`, raw compact timestamps
[5, 9, 2, 6] with counter range `R` (which the raw values fit in) and
resolution `r` µs/tick yield the corrected microsecond sequence
[5r, 9r, 2r+Rr, 6r+Rr], which is strictly increasing: the drop from 9
to 2 is detected as a wraparound and adds `R·r` to the running offset,
and each corrected value is `raw*r + offset`. -/
theorem c2_wraparound_example (r R : Nat) (hr : 0 < r) (hR : 9 < R) :
    correctedTimestampsUs r R ⟨0, 0⟩ [5, 9, 2, 6]
      = [5 * r, 9 * r, 2 * r + R * r, 6 * r + R * r] ∧
    List.Chain' (· < ·) (correctedTimestampsUs r R ⟨0, 0⟩ [5, 9, 2, 6]) := by
  have h95 : ¬ (9 * r < 5 * r) := by omega
  have h29 : 2 * r < 9 * r := by omega
  have h62 : ¬ (6 * r < 2 * r) := by omega
  have heq : correctedTimestampsUs r R ⟨0, 0⟩ [5, 9, 2, 6]
      = [5 * r, 9 * r, 2 * r + R * r, 6 * r + R * r] := by
    simp only [correctedTimestampsUs, gen_timestamp_step, h95, h29, h62,
      if_false, if_true, Nat.not_lt_zero, Nat.add_zero, Nat.zero_add, if_neg]
  refine ⟨heq, ?_⟩
  rw [heq]
  have hRr : 10 * r ≤ R * r := Nat.mul_le_mul_right r hR
  rw [List.chain'_cons, List.chain'_cons, List.chain'_cons]
  refine ⟨by omega, by linarith, by omega, List.chain'_singleton _⟩

/-- Witness for C2 at the default configuration (r = 1000 µs/tick,
R = 0x10000). -/
theorem c2_wraparound_witness :
    correctedTimestampsUs 1000 65536 ⟨0, 0⟩ [5, 9, 2, 6]
      = [5000, 9000, 65538000, 65542000] ∧
    List.Chain' (· < ·) (correctedTimestampsUs 1000 65536 ⟨0, 0⟩ [5, 9, 2, 6]) :=
  ⟨((c2_wraparound_example 1000 65536 (by decide) (by decide)).1).trans
      (by norm_num),
   (c2_wraparound_example 1000 65536 (by decide) (by decide)).2⟩

/-! ### The per-attribute transform pipeline
(`DecodeGenerator.gen_attr_extraction_code`, lines 314-374)

One attribute record's optional JSON fields (already parsed to numbers,
as `int(el[...], 0)` does in the source) and the sequence of transform
operations the generator emits for it.  Each segment definition below
mirrors one `if` block of the source. -/

/-- One attribute record of the `"a"` list in `devInfoJson.resp`:
name, python-struct type tag, optional explicit output type (`"o"`),
optional absolute position (`"at"`), XOR mask (`"x"`), AND mask (`"m"`),
sign-bit position (`"sb"`), sign-subtract constant (`"ss"`), bit shift
(`"s"`), divisor (`"d"`) and addition (`"a"`). -/
structure AttrRec where
  n : String
  t : String
  o : Option String := none
  atPos : Option Nat := none
  x : Option Nat := none
  m : Option Nat := none
  sb : Option Nat := none
  ss : Option Nat := none
  s : Option Int := none
  d : Option Int := none
  a : Option Int := none
deriving DecidableEq

/-- `DecodeGenerator.is_attr_type_signed` (lines 185-189).  Python's
operator precedence makes the condition
`attrType[0] == ">" or (attrType[0] == "<" and len(attrType) > 1)`;
`headD` stands in for the `attrType[1]` index (for the tags that reach
this function the second character always exists). -/
def is_attr_type_signed (t : List Char) : Bool :=
  match t with
  | [] => false
  | c :: rest =>
    let attrStr := if c == '>' || (c == '<' && !rest.isEmpty) then rest.headD c else c
    attrStr == 'b' || attrStr == 'h' || attrStr == 'i' || attrStr == 'l'
      || attrStr == 'q'

/-- One emitted transform operation of the per-attribute decode
pipeline. -/
inductive TransformOp where
  | extract (fn : String)
  | xorMask (x : Nat)
  | andMaskSignExt (m signBit : Nat)
  | andMask (m : Nat)
  | signBitSubtractFrom (mask ss : Nat)
  | signBitTwosComplement (mask sub : Nat)
  | shiftLeft (n : Int)
  | shiftRight (n : Int)
  | store
  | divide (d : Int)
  | addConst (a : Int)
deriving DecidableEq

/-- XOR-mask block (lines 327-329). -/
def xorOps : Option Nat → List TransformOp
  | some xv => [.xorMask xv]
  | none => []

/-- AND-mask block (lines 332-340): for a signed type the emitted code
is the conditional sign-extension `if (v & signBit) v |= ~m & ~signBit;`
with `signBit = (m + 1) >> 1`; for an unsigned type it is `v &= m`. -/
def maskOps (signed : Bool) : Option Nat → List TransformOp
  | some mv => if signed then [.andMaskSignExt mv ((mv + 1) / 2)] else [.andMask mv]
  | none => []

/-- Sign-bit block (lines 343-350): with an `ss` constant the emitted
code is `if (v & (1 << sb)) v = ss - v;`, otherwise
`if (v & (1 << sb)) v -= (1 << sb) << 1;`. -/
def signBitOps : Option Nat → Option Nat → List TransformOp
  | some sbPos, some ssVal => [.signBitSubtractFrom (2 ^ sbPos) ssVal]
  | some sbPos, none => [.signBitTwosComplement (2 ^ sbPos) (2 ^ sbPos * 2)]
  | none, _ => []

/-- Bit-shift block (lines 353-358). -/
def shiftOps : Option Int → List TransformOp
  | some sh =>
    if 0 < sh then [.shiftLeft sh] else if sh < 0 then [.shiftRight (-sh)] else []
  | none => []

/-- Divisor block (lines 364-366). -/
def divOps : Option Int → List TransformOp
  | some dv => if dv ≠ 0 then [.divide dv] else []
  | none => []

/-- Addition block (lines 369-371). -/
def addOps : Option Int → List TransformOp
  | some av => if av ≠ 0 then [.addConst av] else []
  | none => []

/-- The transform sequence the generator emits for one attribute
(lines 314-374): the extraction call (through the unsigned-counterpart
tag when the type is signed and an AND mask is declared, lines 315-318),
then XOR mask, AND mask (with sign extension when signed), sign-bit
handling, bit shift, the store to the output field, divisor, and
addition, in that fixed order. -/
def gen_attr_transform_ops (el : AttrRec) : List TransformOp :=
  [.extract (((pystruct_map.lookup
      (if is_attr_type_signed el.t.data && el.m.isSome then
        el.t.map Char.toUpper else el.t)).map (fun p => p.2)).getD "")]
  ++ xorOps el.x
  ++ maskOps (is_attr_type_signed el.t.data) el.m
  ++ signBitOps el.sb el.ss
  ++ shiftOps el.s
  ++ [.store]
  ++ divOps el.d
  ++ addOps el.a

/-- The AND-mask-with-sign-extension strategy. -/
def isMaskSignExtOp : TransformOp → Bool
  | .andMaskSignExt _ _ => true
  | _ => false

/-- The explicit sign-bit strategy (either variant). -/
def isSignBitOp : TransformOp → Bool
  | .signBitSubtractFrom _ _ => true
  | .signBitTwosComplement _ _ => true
  | _ => false

lemma any_maskSignExt_iff (el : AttrRec) :
    (gen_attr_transform_ops el).any isMaskSignExtOp
      = (is_attr_type_signed el.t.data && el.m.isSome) := by
  obtain ⟨n, t, o, atPos, x, m, sb, ss, s, d, a⟩ := el
  simp only [gen_attr_transform_ops, List.any_append]
  have h1 : (xorOps x).any isMaskSignExtOp = false := by
    cases x <;> simp [xorOps, isMaskSignExtOp]
  have h2 : (signBitOps sb ss).any isMaskSignExtOp = false := by
    cases sb <;> cases ss <;> simp [signBitOps, isMaskSignExtOp]
  have h3 : (shiftOps s).any isMaskSignExtOp = false := by
    cases s with
    | none => simp [shiftOps]
    | some sh =>
      simp only [shiftOps]
      split
      · simp [isMaskSignExtOp]
      · split <;> simp [isMaskSignExtOp]
  have h4 : (divOps d).any isMaskSignExtOp = false := by
    cases d with
    | none => simp [divOps]
    | some dv =>
      simp only [divOps]
      split <;> simp [isMaskSignExtOp]
  have h5 : (addOps a).any isMaskSignExtOp = false := by
    cases a with
    | none => simp [addOps]
    | some av =>
      simp only [addOps]
      split <;> simp [isMaskSignExtOp]
  have h6 : (maskOps (is_attr_type_signed t.data) m).any isMaskSignExtOp
      = (is_attr_type_signed t.data && m.isSome) := by
    cases m with
    | none => simp [maskOps]
    | some mv =>
      simp only [maskOps]
      cases hs : is_attr_type_signed t.data <;> simp [isMaskSignExtOp]
  rw [h1, h2, h3, h4, h5, h6]
  simp [isMaskSignExtOp]

lemma any_signBit_iff (el : AttrRec) :
    (gen_attr_transform_ops el).any isSignBitOp = el.sb.isSome := by
  obtain ⟨n, t, o, atPos, x, m, sb, ss, s, d, a⟩ := el
  simp only [gen_attr_transform_ops, List.any_append]
  have h1 : (xorOps x).any isSignBitOp = false := by
    cases x <;> simp [xorOps, isSignBitOp]
  have h2 : (maskOps (is_attr_type_signed t.data) m).any isSignBitOp = false := by
    cases m with
    | none => simp [maskOps]
    | some mv =>
      simp only [maskOps]
      cases is_attr_type_signed t.data <;> simp [isSignBitOp]
  have h3 : (shiftOps s).any isSignBitOp = false := by
    cases s with
    | none => simp [shiftOps]
    | some sh =>
      simp only [shiftOps]
      split
      · simp [isSignBitOp]
      · split <;> simp [isSignBitOp]
  have h4 : (divOps d).any isSignBitOp = false := by
    cases d with
    | none => simp [divOps]
    | some dv =>
      simp only [divOps]
      split <;> simp [isSignBitOp]
  have h5 : (addOps a).any isSignBitOp = false := by
    cases a with
    | none => simp [addOps]
    | some av =>
      simp only [addOps]
      split <;> simp [isSignBitOp]
  have h6 : (signBitOps sb ss).any isSignBitOp = sb.isSome := by
    cases sb <;> cases ss <;> simp [signBitOps, isSignBitOp]
  rw [h1, h2, h3, h4, h5, h6]
  simp [isSignBitOp]

/-- Claim C7, counterexample: an attribute with a signed type tag that
declares both an AND mask and a sign-bit position gets BOTH
sign-handling strategies emitted into its transform sequence — the
mask blocks and the sign-bit blocks are independent `if`s in the
generator (lines 332-350), nothing enforces exclusivity. -/
theorem c7_counterexample_both_strategies :
    (gen_attr_transform_ops
        { n := "temp", t := ">h", m := some 4095, sb := some 11 }).any
      isMaskSignExtOp = true ∧
    (gen_attr_transform_ops
        { n := "temp", t := ">h", m := some 4095, sb := some 11 }).any
      isSignBitOp = true := by
  refine ⟨by decide, by decide⟩

/-- Claim C7 as amended: the two sign-handling strategies never both
appear in one attribute's emitted transform sequence UNLESS the record
declares both an AND mask (with a signed type) and a sign-bit position;
the AND-mask-with-sign-extension blocks appear exactly when the type is
signed and `m` is declared, the sign-bit blocks exactly when `sb` is
declared. -/
theorem c7_single_sign_strategy_amended (el : AttrRec)
    (h : ¬ (is_attr_type_signed el.t.data = true ∧ el.m.isSome = true
      ∧ el.sb.isSome = true)) :
    ¬ ((gen_attr_transform_ops el).any isMaskSignExtOp = true ∧
       (gen_attr_transform_ops el).any isSignBitOp = true) := by
  rw [any_maskSignExt_iff, any_signBit_iff]
  intro hc
  rcases hc with ⟨h1, h2⟩
  rw [Bool.and_eq_true] at h1
  exact h ⟨h1.1, h1.2, h2⟩

/-- Witness for C7: an attribute with a signed type and only an AND
mask declared uses only the mask strategy. -/
theorem c7_single_sign_strategy_witness :
    ¬ ((gen_attr_transform_ops { n := "temp", t := ">h", m := some 4095 }).any
        isMaskSignExtOp = true ∧
       (gen_attr_transform_ops { n := "temp", t := ">h", m := some 4095 }).any
        isSignBitOp = true) :=
  c7_single_sign_strategy_amended { n := "temp", t := ">h", m := some 4095 }
    (by decide)

/-! ### Runtime semantics of the signed AND-mask sign extension
(lines 334-338 of `gen_attr_extraction_code`)

The emitted C++ is
`if (__v & signBit) { __v |= ~mask & ~signBit; }` on the widened
intermediate variable, after the value was extracted through the
unsigned-counterpart tag (lines 315-321).  The intermediate is modelled
at bit-pattern level over its width `Wp` (two's-complement hardware
semantics: `&`, `|` and `~` act on the pattern; `~x` over `Wp` bits is
`(2^Wp - 1) ^^^ x`), and `toSigned` gives the signed value the C++
intermediate holds. -/

/-- The conditional sign-extension block on a `Wp`-bit intermediate. -/
def andMaskSignExtStep (Wp m signBit v : Nat) : Nat :=
  if v &&& signBit ≠ 0 then
    v ||| (((2 ^ Wp - 1) ^^^ m) &&& ((2 ^ Wp - 1) ^^^ signBit))
  else v

/-- The signed value a `Wp`-bit two's-complement pattern denotes. -/
def toSigned (Wp v : Nat) : Int :=
  if v < 2 ^ (Wp - 1) then (v : Int) else (v : Int) - 2 ^ Wp

lemma land_two_pow_sub_one_eq_mod (x n : Nat) : x &&& (2 ^ n - 1) = x % 2 ^ n := by
  apply Nat.eq_of_testBit_eq
  intro i
  rw [Nat.testBit_land, Nat.testBit_two_pow_sub_one, Nat.testBit_mod_two_pow,
    Bool.and_comm]

lemma signbit_of_mask (k : Nat) (hk : 0 < k) :
    ((2 ^ k - 1) + 1) / 2 = 2 ^ (k - 1) := by
  rw [Nat.sub_add_cancel Nat.one_le_two_pow]
  conv_lhs => rw [show k = (k - 1) + 1 by omega, pow_succ]
  exact Nat.mul_div_cancel _ (by norm_num)

lemma or_ext_pattern (Wp k raw : Nat) (hk : 0 < k) (hkW : k < Wp)
    (hraw : raw < 2 ^ Wp) :
    raw ||| (((2 ^ Wp - 1) ^^^ (2 ^ k - 1)) &&& ((2 ^ Wp - 1) ^^^ 2 ^ (k - 1)))
      = 2 ^ k * (2 ^ (Wp - k) - 1) + raw % 2 ^ k := by
  apply Nat.eq_of_testBit_eq
  intro i
  rw [Nat.testBit_lor, Nat.testBit_land, Nat.testBit_xor, Nat.testBit_xor,
    Nat.testBit_two_pow_sub_one, Nat.testBit_two_pow_sub_one,
    Nat.testBit_two_pow,
    Nat.testBit_mul_pow_two_add _ (Nat.mod_lt raw (Nat.two_pow_pos k)) i]
  by_cases hik : i < k
  · rw [if_pos hik, Nat.testBit_mod_two_pow]
    simp [hik, lt_trans hik hkW]
  · by_cases hiW : i < Wp
    · rw [if_neg hik, Nat.testBit_two_pow_sub_one]
      have h1 : i - k < Wp - k := by omega
      simp [hik, hiW, h1, show ¬(k - 1 = i) by omega]
    · rw [if_neg hik]
      have hr : raw.testBit i = false :=
        Nat.testBit_lt_two_pow
          (lt_of_lt_of_le hraw (Nat.pow_le_pow_right (by norm_num)
            (le_of_not_lt hiW)))
      have h2 : (2 ^ (Wp - k) - 1).testBit (i - k) = false := by
        rw [Nat.testBit_two_pow_sub_one]
        simp
        omega
      simp [hr, h2, hik, hiW, show ¬(k - 1 = i) by omega]

/-- Claim C3: for a signed attribute with a (contiguous) declared AND
mask `m = 2^k - 1` of width `k` inside a widened `Wp`-bit intermediate,
the generator emits the sign-extension block with
`signBit = (m+1) >> 1 = 2^(k-1)`, and for EVERY extracted raw value
(including ones with bits set outside `m`) whose top bit within `m` is
set, the resulting intermediate holds exactly the negative mask-width
two's-complement interpretation of `raw AND m`. -/
theorem c3_signed_mask_sign_extension (Wp k raw : Nat)
    (hk : 0 < k) (hkW : k < Wp) (hraw : raw < 2 ^ Wp)
    (htop : raw &&& 2 ^ (k - 1) ≠ 0) :
    maskOps true (some (2 ^ k - 1))
      = [.andMaskSignExt (2 ^ k - 1) (2 ^ (k - 1))] ∧
    toSigned Wp (andMaskSignExtStep Wp (2 ^ k - 1) (2 ^ (k - 1)) raw)
      = ((raw &&& (2 ^ k - 1) : Nat) : Int) - 2 ^ k ∧
    ((raw &&& (2 ^ k - 1) : Nat) : Int) - 2 ^ k < 0 := by
  have hmod : raw % 2 ^ k < 2 ^ k := Nat.mod_lt raw (Nat.two_pow_pos k)
  have hland : raw &&& (2 ^ k - 1) = raw % 2 ^ k :=
    land_two_pow_sub_one_eq_mod raw k
  refine ⟨?_, ?_, ?_⟩
  · simp only [maskOps, if_pos]
    rw [signbit_of_mask k hk]
  · unfold andMaskSignExtStep
    rw [if_pos htop, or_ext_pattern Wp k raw hk hkW hraw]
    have hsplit : (2 : Nat) ^ k * 2 ^ (Wp - k) = 2 ^ Wp := by
      rw [← pow_add]
      congr 1
      omega
    have hAB : 2 ^ k * (2 ^ (Wp - k) - 1) = 2 ^ Wp - 2 ^ k := by
      rw [Nat.mul_sub, hsplit, Nat.mul_one]
    have hkWp : (2 : Nat) ^ k ≤ 2 ^ (Wp - 1) :=
      Nat.pow_le_pow_right (by norm_num) (by omega)
    have hdouble : (2 : Nat) ^ Wp = 2 * 2 ^ (Wp - 1) := by
      conv_lhs => rw [show Wp = (Wp - 1) + 1 by omega, pow_succ']
    have hbig : ¬ (2 ^ k * (2 ^ (Wp - k) - 1) + raw % 2 ^ k < 2 ^ (Wp - 1)) := by
      rw [hAB]
      omega
    unfold toSigned
    rw [if_neg hbig, hAB, hland]
    have hle : (2 : Nat) ^ k ≤ 2 ^ Wp :=
      Nat.pow_le_pow_right (by norm_num) (le_of_lt hkW)
    push_cast [Nat.cast_sub hle]
    ring
  · rw [hland]
    have h2 : (((2 : Nat) ^ k : Nat) : Int) = (2 : Int) ^ k := by push_cast; rfl
    rw [← h2]
    have h1 : ((raw % 2 ^ k : Nat) : Int) < ((2 ^ k : Nat) : Int) := by
      exact_mod_cast hmod
    linarith

/-- Witness for C3: 32-bit intermediate, 12-bit mask `0xFFF`, raw value
`0x1800` (bit 11 set, plus a bit outside the mask): the stored signed
intermediate is `0x800 - 0x1000 = -2048 < 0`. -/
theorem c3_signed_mask_witness :
    toSigned 32 (andMaskSignExtStep 32 (2 ^ 12 - 1) (2 ^ 11) 6144)
      = ((6144 &&& (2 ^ 12 - 1) : Nat) : Int) - 2 ^ 12 ∧
    ((6144 &&& (2 ^ 12 - 1) : Nat) : Int) - 2 ^ 12 < 0 :=
  ⟨(c3_signed_mask_sign_extension 32 12 6144 (by decide) (by decide) (by decide)
      (by decide)).2.1,
   (c3_signed_mask_sign_extension 32 12 6144 (by decide) (by decide) (by decide)
      (by decide)).2.2⟩

/-! ### The pseudocode lexer (`PseudocodeHandler.token_dict`, lines 8-46,
and `PseudocodeHandler.lexer`, lines 48-57)

The lexer joins the token patterns into one alternation
(`'|'.join(...)`) and scans with `re.finditer`: at each position the
alternatives are tried IN LIST ORDER and the first one that matches
wins (Python alternation is ordered, not longest-match); positions
matching no alternative are silently skipped.  Each individual pattern
is modelled by a maximal-munch matcher returning the matched length. -/

/-- Literal-string pattern: matches its own text. -/
def matchLit (pat : List Char) (l : List Char) : Option Nat :=
  if pat.isPrefixOf l then some pat.length else none

/-- Keyword pattern `kw\b`: the keyword not followed by a word
character. -/
def matchKeyword (kw : List Char) (l : List Char) : Option Nat :=
  if kw.isPrefixOf l then
    match l.drop kw.length with
    | [] => some kw.length
    | c :: _ => if isPyWordChar c then none else some kw.length
  else none

/-- First character of an identifier segment: `[a-zA-Z_]`. -/
def matchIdentStart (c : Char) : Bool := c.isAlpha || c == '_'

/-- Greedy extra dotted segments of the identifier pattern
`(\.[a-zA-Z_]\w*)*` (fuel-driven; the fuel is the input length, enough
because each segment consumes at least two characters). -/
def matchIDSegsFuel : Nat → List Char → Nat
  | 0, _ => 0
  | fuel + 1, l =>
    match l with
    | '.' :: c :: rest =>
      if matchIdentStart c then
        2 + (rest.takeWhile isPyWordChar).length
          + matchIDSegsFuel fuel (rest.drop (rest.takeWhile isPyWordChar).length)
      else 0
    | _ => 0

/-- Identifier pattern `[a-zA-Z_][a-zA-Z0-9_]*(?:\.[a-zA-Z_][a-zA-Z0-9_]*)*`
(line 14): dotted identifiers are one token. -/
def matchID (l : List Char) : Option Nat :=
  match l with
  | c :: rest =>
    if matchIdentStart c then
      some (1 + (rest.takeWhile isPyWordChar).length
        + matchIDSegsFuel rest.length
            (rest.drop (rest.takeWhile isPyWordChar).length))
    else none
  | [] => none

/-- Integer literal pattern `\d+` (line 16). -/
def matchNumInt (l : List Char) : Option Nat :=
  if (l.takeWhile Char.isDigit).length = 0 then none
  else some (l.takeWhile Char.isDigit).length

/-- Float literal pattern `\d+\.\d*` (line 17). -/
def matchNumFloat (l : List Char) : Option Nat :=
  if (l.takeWhile Char.isDigit).length = 0 then none
  else
    match l.drop (l.takeWhile Char.isDigit).length with
    | '.' :: rest =>
      some ((l.takeWhile Char.isDigit).length + 1
        + (rest.takeWhile Char.isDigit).length)
    | _ => none

/-- Whitespace pattern `[ \t]+` (line 44). -/
def matchWs (l : List Char) : Option Nat :=
  if (l.takeWhile (fun c => c == ' ' || c == '\t')).length = 0 then none
  else some (l.takeWhile (fun c => c == ' ' || c == '\t')).length

/-- Relational-operator pattern `==|!=|<=|>=|<|>` (line 34), ordered
alternation. -/
def matchRelOp (l : List Char) : Option Nat :=
  match matchLit ['=', '='] l with
  | some n => some n
  | none =>
    match matchLit ['!', '='] l with
    | some n => some n
    | none =>
      match matchLit ['<', '='] l with
      | some n => some n
      | none =>
        match matchLit ['>', '='] l with
        | some n => some n
        | none =>
          match matchLit ['<'] l with
          | some n => some n
          | none => matchLit ['>'] l

/-- `PseudocodeHandler.token_dict` (lines 8-46), in source order: note
`NUM_INT` is listed BEFORE `NUM_FLOAT`. -/
def token_dict : List (String × (List Char → Option Nat)) :=
  [("INT", matchKeyword (("int").data)),
   ("FLOAT", matchKeyword (("float").data)),
   ("RETURN", matchKeyword (("return").data)),
   ("WHILE", matchKeyword (("while").data)),
   ("NEXT", matchKeyword (("next").data)),
   ("ID", matchID),
   ("NUM_INT", matchNumInt),
   ("NUM_FLOAT", matchNumFloat),
   ("LOGICAL_AND", matchLit (("&&").data)),
   ("LOGICAL_OR", matchLit (("||").data)),
   ("LOGICAL_NOT", matchLit (("!").data)),
   ("SHIFT_LEFT", matchLit (("<<").data)),
   ("SHIFT_RIGHT", matchLit ((">>").data)),
   ("BITWISE_AND", matchLit (("&").data)),
   ("BITWISE_OR", matchLit (("|").data)),
   ("BITWISE_XOR", matchLit (("^").data)),
   ("BITWISE_NOT", matchLit (("~").data)),
   ("INC_OP", matchLit (("++").data)),
   ("DEC_OP", matchLit (("--").data)),
   ("ADD_OP", matchLit (("+").data)),
   ("SUB_OP", matchLit (("-").data)),
   ("MUL_OP", matchLit (("*").data)),
   ("DIV_OP", matchLit (("/").data)),
   ("MOD_OP", matchLit (("%").data)),
   ("REL_OP", matchRelOp),
   ("ASSIGN", matchLit (("=").data)),
   ("SEMI", matchLit ((";").data)),
   ("COMMA", matchLit ((",").data)),
   ("LPAREN", matchLit (("(").data)),
   ("RPAREN", matchLit ((")").data)),
   ("LBRACE", matchLit (("\x7b").data)),
   ("RBRACE", matchLit (("\x7d").data)),
   ("LBRACK", matchLit (("[").data)),
   ("RBRACK", matchLit (("]").data)),
   ("WHITESPACE", matchWs),
   ("NEWLINE", matchLit (("\n").data))]

/-- The first pattern in list order that matches at the current
position (the semantics of Python's ordered alternation). -/
def findFirstToken : List (String × (List Char → Option Nat)) → List Char →
    Option (String × Nat)
  | [], _ => none
  | (name, m) :: rest, l =>
    match m l with
    | some n => some (name, n)
    | none => findFirstToken rest l

/-- A lexer token value: the numeric conversion of lines 55-56
(`float(value) if '.' in value else int(value)`) applied to number
tokens, the raw lexeme otherwise.  A float literal is kept as its
lexeme (its numeric reading is never needed: see the claim-C9
theorem). -/
inductive TokValue where
  | str (s : String)
  | intVal (n : Int)
  | floatLit (s : String)
deriving DecidableEq

/-- The scanning loop of `lexer` (lines 50-57): at each position take
the first matching pattern, skip whitespace/newline tokens, convert
number-token values, and silently skip positions where no pattern
matches (re.finditer semantics).  Fuel-driven with fuel = input length
(every step consumes at least one character). -/
def runLexerFuel : Nat → List Char → List (String × TokValue)
  | 0, _ => []
  | _, [] => []
  | fuel + 1, c :: cs =>
    match findFirstToken token_dict (c :: cs) with
    | some (kind, n) =>
      if kind = "WHITESPACE" || kind = "NEWLINE" then
        runLexerFuel fuel (cs.drop (n - 1))
      else if kind = "NUM_INT" || kind = "NUM_FLOAT" then
        (kind,
          if '.' ∈ (c :: cs).take n then
            TokValue.floatLit (String.mk ((c :: cs).take n))
          else TokValue.intVal ((digitsToNat? ((c :: cs).take n)).getD 0)) ::
          runLexerFuel fuel (cs.drop (n - 1))
      else (kind, TokValue.str (String.mk ((c :: cs).take n))) ::
          runLexerFuel fuel (cs.drop (n - 1))
    | none => runLexerFuel fuel cs

/-- `PseudocodeHandler.lexer` (lines 48-57). -/
def lexer (l : List Char) : List (String × TokValue) :=
  runLexerFuel l.length l

/-- Claim C9 (code_bug evaluation): the float literal `3.5` does NOT
lex to one number token of value 3.5 — because `NUM_INT` precedes
`NUM_FLOAT` in `token_dict` and Python's alternation is ordered,
`NUM_FLOAT` can never match (every float literal starts with digits
that `NUM_INT` claims first); `3.5` yields the two integer tokens 3 and
5 with the dot silently dropped, and the `NUM_FLOAT` pattern itself
WOULD have matched the whole literal had it been reachable. -/
theorem c9_float_literal_split :
    lexer (("3.5").data)
      = [("NUM_INT", TokValue.intVal 3), ("NUM_INT", TokValue.intVal 5)] ∧
    (∀ tk ∈ lexer (("3.5").data), tk.1 ≠ "NUM_FLOAT") ∧
    matchNumFloat (("3.5").data) = some 3 := by
  refine ⟨by decide, by decide, by decide⟩

/-! ### The generator driver (`ProcessDevTypeJsonToC.process_dev_types`,
lines 117-242)

The driver opens the output header with `open(header_path, 'w')` and
writes incrementally: the preamble (lines 120-122), then the device-type
record table.  Inside the record loop, for each device type it first
computes the polling-config byte length (line 140) and compares it with
the declared `devInfoJson.resp.b` (lines 143-146): on mismatch it prints
a diagnostic and calls `sys.exit(1)`; an invalid polling-config entry
raises `ValueError` out of `poll_data_bytes`, which terminates the
interpreter with a traceback and exit status 1.  In both cases the
`with` block closes (and flushes) the file, so everything already
written remains in the output header.  The model below tracks the runs
with decode-routine emission disabled (the `--gendecode` CLI toggle);
the abort ordering is identical with it enabled, since the length check
precedes all of the failing record's writes.  Writes after a successful
loop (address tables, scan priorities) are cut off at the table's
closing brace: no claim concerns a successful run's full content. -/

/-- One entry of the input `devTypes` table, with the pre-rendered JSON
strings (`json.dumps`) carried as data. `respB` is
`devInfoJson.resp.b` with the source's `.get(..., 0)` default. -/
structure DevTypeRecord where
  key : String
  deviceType : String
  addresses : String
  detectionValues : String
  initValues : String
  pollInfoC : String
  pollingConfigJsonStr : String
  devInfoJsonStr : String
  respB : Int := 0
deriving DecidableEq

/-- `DecodeGenerator.poll_data_bytes` (lines 418-423): parse the
polling-config string of `pollInfo["c"]`. -/
def poll_data_bytes (d : DevTypeRecord) : Except (List Char) Int :=
  get_polling_config_result_len_bytes d.pollInfoC.data

/-- The outcome of one generator run: the strings written to the header
file (in order), the console diagnostic lines, and the exit status
(`some 1` = aborted). -/
structure GenRun where
  headerWrites : List String
  console : List String
  exitCode : Option Nat
deriving DecidableEq

/-- The writes of one successfully processed record (lines 151-167),
with decode emission disabled. -/
def record_writes (incDevInfoJson : Bool) (d : DevTypeRecord)
    (pollDataSize : Int) : List String :=
  ["    \x7b\n",
   "        R\"(" ++ d.deviceType ++ ")\",\n",
   "        R\"(" ++ d.addresses ++ ")\",\n",
   "        R\"(" ++ d.detectionValues ++ ")\",\n",
   "        R\"(" ++ d.initValues ++ ")\",\n",
   "        R\"(" ++ d.pollingConfigJsonStr ++ ")\",\n",
   "        " ++ toString pollDataSize ++ ",\n"]
  ++ (if incDevInfoJson then ["        R\"(" ++ d.devInfoJsonStr ++ ")\""]
      else ["        nullptr"])
  ++ ["\n    \x7d,\n"]

/-- The record loop (lines 136-168): length check before any of the
record's own writes; mismatch prints the diagnostic naming the device
key and both lengths and exits with status 1; a `ValueError` from the
polling-config parser propagates (traceback on the console, exit
status 1).  `acc` is everything written so far. -/
def process_records (incDevInfoJson : Bool) :
    List DevTypeRecord → List String → GenRun
  | [], acc => { headerWrites := acc ++ ["\x7d;\n\n"], console := [], exitCode := none }
  | d :: rest, acc =>
    match poll_data_bytes d with
    | .error e => { headerWrites := acc, console := [String.mk e], exitCode := some 1 }
    | .ok n =>
      if n ≠ d.respB then
        { headerWrites := acc,
          console := ["Poll data size mismatch for " ++ d.key ++ " JSON "
            ++ toString d.respB ++ " Calculated " ++ toString n],
          exitCode := some 1 }
      else process_records incDevInfoJson rest (acc ++ record_writes incDevInfoJson d n)

/-- `process_dev_types` (header-writing stage): preamble writes
(lines 120-122), table header (lines 132-133), then the record loop. -/
def process_dev_types (incDevInfoJson : Bool) (devs : List DevTypeRecord) : GenRun :=
  process_records incDevInfoJson devs
    ["#pragma once\n", "#include <stdint.h>\n", "using namespace Raft;\n\n",
     "static BusI2CDevTypeRecord baseDevTypeRecords[] =\n", "\x7b\n"]

lemma process_records_append_ok (incDevInfoJson : Bool) :
    ∀ (pre : List DevTypeRecord) (rest : List DevTypeRecord) (acc : List String),
      (∀ e ∈ pre, poll_data_bytes e = .ok e.respB) →
      process_records incDevInfoJson (pre ++ rest) acc
        = process_records incDevInfoJson rest
            (acc ++ (pre.map
              (fun e => record_writes incDevInfoJson e e.respB)).flatten) := by
  intro pre
  induction pre with
  | nil => intro rest acc _; simp
  | cons e pre2 ih =>
    intro rest acc h
    rw [List.cons_append, process_records, h e (List.mem_cons_self e pre2)]
    simp only
    rw [if_neg (by simp)]
    rw [ih rest _ (fun x hx => h x (List.mem_cons_of_mem e hx))]
    simp

/-- A device type whose declared record length (3) disagrees with its
polling config (`r2`, 2 bytes). -/
def c6dev : DevTypeRecord :=
  { key := "TSL2591", deviceType := "TSL2591", addresses := "0x29",
    detectionValues := "0x12=0b01010000", initValues := "0x00=",
    pollInfoC := "0x14=r2", pollingConfigJsonStr := "pollcfg",
    devInfoJsonStr := "devinfo", respB := 3 }

/-- Claim C6, counterexample: on a declared-vs-computed length mismatch
the generator does abort with exit status 1 and a diagnostic naming the
device type and both lengths — but the header file is NOT left empty:
the preamble and table header were already written (and flushed when the
`with` block closes), so partial output survives the aborted run,
contrary to the claim. -/
theorem c6_counterexample_partial_output_survives :
    (process_dev_types false [c6dev]).exitCode = some 1 ∧
    (process_dev_types false [c6dev]).console
      = ["Poll data size mismatch for TSL2591 JSON 3 Calculated 2"] ∧
    (process_dev_types false [c6dev]).headerWrites
      = ["#pragma once\n", "#include <stdint.h>\n", "using namespace Raft;\n\n",
         "static BusI2CDevTypeRecord baseDevTypeRecords[] =\n", "\x7b\n"] ∧
    (process_dev_types false [c6dev]).headerWrites ≠ [] := by
  refine ⟨rfl, rfl, rfl, by decide⟩

/-- Claim C6 as amended: a record-length mismatch (at any position, all
earlier device types passing their checks) aborts the run with exit
status 1 and a diagnostic naming the offending device-type key and both
lengths, and an invalid polling-config entry aborts with exit status 1
(its `ValueError` message does not name the device type); in BOTH cases
the already-written partial header output survives — the header file
starts with the preamble, it is not empty. -/
theorem c6_abort_behavior_amended :
    (∀ (inc : Bool) (pre post : List DevTypeRecord) (d : DevTypeRecord) (n : Int),
      (∀ e ∈ pre, poll_data_bytes e = .ok e.respB) →
      poll_data_bytes d = .ok n → n ≠ d.respB →
      (process_dev_types inc (pre ++ d :: post)).exitCode = some 1 ∧
      (process_dev_types inc (pre ++ d :: post)).console
        = ["Poll data size mismatch for " ++ d.key ++ " JSON "
            ++ toString d.respB ++ " Calculated " ++ toString n] ∧
      (process_dev_types inc (pre ++ d :: post)).headerWrites.head?
        = some "#pragma once\n") ∧
    (∀ (inc : Bool) (pre post : List DevTypeRecord) (d : DevTypeRecord)
        (e : List Char),
      (∀ x ∈ pre, poll_data_bytes x = .ok x.respB) →
      poll_data_bytes d = .error e →
      (process_dev_types inc (pre ++ d :: post)).exitCode = some 1 ∧
      (process_dev_types inc (pre ++ d :: post)).console = [String.mk e] ∧
      (process_dev_types inc (pre ++ d :: post)).headerWrites.head?
        = some "#pragma once\n") := by
  constructor
  · intro inc pre post d n hpre hd hne
    unfold process_dev_types
    rw [process_records_append_ok inc pre (d :: post) _ hpre, process_records, hd]
    simp only
    rw [if_pos hne]
    refine ⟨rfl, rfl, ?_⟩
    simp
  · intro inc pre post d e hpre hd
    unfold process_dev_types
    rw [process_records_append_ok inc pre (d :: post) _ hpre, process_records, hd]
    refine ⟨rfl, rfl, ?_⟩
    simp

/-- Witness for C6: the mismatch case applied at a concrete single-entry
table, and the invalid-entry case at a table whose polling config
declares a 3-bit pattern. -/
theorem c6_abort_behavior_witness :
    (process_dev_types false ([] ++ c6dev :: [])).exitCode = some 1 ∧
    GenRun.exitCode
      (process_dev_types false
        ([] ++ ({ key := "BAD", deviceType := "B", addresses := "0x10",
                  detectionValues := "", initValues := "",
                  pollInfoC := "0x14=0b001", pollingConfigJsonStr := "p",
                  devInfoJsonStr := "d", respB := 0 } : DevTypeRecord) :: []))
      = some 1 :=
  ⟨(c6_abort_behavior_amended.1 false [] [] c6dev 2 (by simp) rfl
      (by decide)).1,
   (c6_abort_behavior_amended.2 false [] []
      { key := "BAD", deviceType := "B", addresses := "0x10",
        detectionValues := "", initValues := "",
        pollInfoC := "0x14=0b001", pollingConfigJsonStr := "p",
        devInfoJsonStr := "d", respB := 0 }
      (("Invalid polling config record value: 0b001").data) (by simp) rfl).1⟩

end RaftI2C
